import Mathlib

/-!
Verification of the session-lifecycle and log-pipeline subsystem of the
ai-live-log-bridge repository (src/session.ts, src/storage.ts, src/server.ts,
src/wrapper.ts), as a shallow embedding in Lean.

Strings are handled through their underlying character lists; JavaScript
string primitives used by the source (split, trim, join, slice with a
negative index, regex matching) are embedded as executable functions on
`List Char` below, and every embedded operation keeps the name of the
source function it models.
-/

namespace LogBridge

/-! ### JavaScript string primitives -/

/-- JavaScript `String.prototype.split(sep)` for a one-character separator:
splits on every occurrence, keeping empty pieces (`"".split` gives one
empty piece). -/
def splitOnChar (sep : Char) : List Char → List (List Char)
  | [] => [[]]
  | c :: cs =>
    if c = sep then [] :: splitOnChar sep cs
    else
      match splitOnChar sep cs with
      | [] => [[c]]
      | w :: ws => (c :: w) :: ws

/-- Inverse of `splitOnChar`: JavaScript `Array.prototype.join(sep)` for a
one-character separator. -/
def joinWith (sep : Char) : List (List Char) → List Char
  | [] => []
  | [w] => w
  | w :: ws => w ++ sep :: joinWith sep ws

/-- JavaScript `String.prototype.trim()`: drop whitespace from both ends. -/
def trimChars (cs : List Char) : List Char :=
  ((cs.dropWhile Char.isWhitespace).reverse.dropWhile Char.isWhitespace).reverse

/-- JavaScript `Array.prototype.slice(-count)` as used by the source: for
`count = 0` this is `slice(0)` (the whole array, since `-0 = 0`), for
`count >= 1` it is the last `count` elements. -/
def sliceNeg (l : List α) (count : Nat) : List α :=
  if count = 0 then l else l.drop (l.length - count)

/-- `String.prototype.split` lifted to `String`. -/
def jsSplitLines (s : String) : List String :=
  (splitOnChar '\n' s.data).map (fun cs => ⟨cs⟩)

/-- `Array.prototype.join` with a newline, lifted to `String`. -/
def joinLines (ls : List String) : String :=
  ⟨joinWith '\n' (ls.map String.data)⟩

/-! ### Ledger (master index), from src/session.ts -/

/-- `registerSession` (src/session.ts lines 44-58): builds the ledger entry
`[timestamp] [sessionId] [cwd] command args...` and appends it to the
existing master-index content (or starts the file with it). The file system
read/write pair is embedded as a function from the prior content
(`none` = file absent) to the new content. -/
def registerSession (prior : Option String) (timestamp sessionId cwd command : String)
    (args : List String) : String :=
  let fullCommand := command ++ " " ++ String.intercalate " " args
  let entry := "[" ++ timestamp ++ "] [" ++ sessionId ++ "] [" ++ cwd ++ "] " ++ fullCommand ++ "\n"
  match prior with
  | some content => content ++ entry
  | none => entry

/-- Character class of the regex `[\d-]` used by `getAllSessionIds`. -/
def isDigitDash (c : Char) : Bool := c.isDigit || c = '-'

/-- First match of the regex `\[([\d-]+)\]` in a character list, returning
the captured group. The engine scans left to right; at an opening bracket
the greedy `[\d-]+` consumes the maximal digit-dash run, and the match
succeeds only when that run is nonempty and immediately followed by `]`
(backtracking cannot help, because every shorter prefix of the run is
followed by a digit or dash rather than `]`). -/
def firstBracketMatch : List Char → Option (List Char)
  | [] => none
  | c :: rest =>
    if c = '[' then
      let run := rest.takeWhile isDigitDash
      match rest.dropWhile isDigitDash with
      | ']' :: _ => if run.isEmpty then firstBracketMatch rest else some run
      | _ => firstBracketMatch rest
    else firstBracketMatch rest

/-- The id a ledger line yields: the captured group of the first
`\[([\d-]+)\]` match, if any (src/session.ts lines 76-83). -/
def extractSessionId (line : String) : Option String :=
  (firstBracketMatch line.data).map (fun cs => ⟨cs⟩)

/-- The line list `getAllSessionIds` iterates over:
`content.trim().split('\n').filter(line => line.length > 0)`. -/
def ledgerLines (content : String) : List String :=
  ((splitOnChar '\n' (trimChars content.data)).map (fun cs => (⟨cs⟩ : String))).filter
    (fun l => 0 < l.length)

/-- `getAllSessionIds` (src/session.ts lines 64-86) on the master-index
content: ids of the lines whose regex match succeeds, in file order; lines
without a match are skipped. An absent file is the empty content case of
the caller (`none` handled at call sites as `[]`). -/
def getAllSessionIds (content : String) : List String :=
  (ledgerLines content).filterMap extractSessionId

/-- `getRecentSessionIds` (src/session.ts lines 93-96):
`getAllSessionIds().slice(-count).reverse()`. -/
def getRecentSessionIds (content : String) (count : Nat) : List String :=
  (sliceNeg (getAllSessionIds content) count).reverse

/-! ### Active-session registry (active-sessions.json), from src/session.ts

The registry file holds a JSON object mapping each running session id to
`\x7b "projectDir": ..., "startTime": ... \x7d`.  The source reads it with
`JSON.parse`, which throws on malformed content; the embedding returns
`Except` with `jsonParseError` for the thrown case.  The parser below is a
recognizer for the canonical text `JSON.stringify(active, null, 2)`
produces (strings without escape sequences), which is the only shape the
program itself ever writes; anything else is rejected, as `JSON.parse`
rejects the concrete malformed contents considered here. -/

/-- Parsed registry: `(sessionId, projectDir, startTime)` entries in object
key order. -/
abbrev ActiveMap := List (String × String × String)

/-- The message of the exception `JSON.parse` throws. -/
def jsonParseError : String := "Unexpected token in JSON"

def skipWs (cs : List Char) : List Char := cs.dropWhile Char.isWhitespace

/-- Parse a JSON string literal without escape sequences. -/
def parseJString (cs : List Char) : Option (String × List Char) :=
  match skipWs cs with
  | '"' :: rest =>
    let content := rest.takeWhile (fun c => c ≠ '"')
    match rest.dropWhile (fun c => c ≠ '"') with
    | '"' :: rest2 => if content.all (fun c => c ≠ '\\') then some (⟨content⟩, rest2) else none
    | _ => none
  | _ => none

def expectChar (c : Char) (cs : List Char) : Option (List Char) :=
  match skipWs cs with
  | d :: rest => if d = c then some rest else none
  | [] => none

/-- Parse one `\x7b "projectDir": s, "startTime": s \x7d` object. -/
def parseInfo (cs : List Char) : Option ((String × String) × List Char) := do
  let cs1 ← expectChar '\x7b' cs
  let (k1, cs2) ← parseJString cs1
  if k1 = "projectDir" then
    let cs3 ← expectChar ':' cs2
    let (v1, cs4) ← parseJString cs3
    let cs5 ← expectChar ',' cs4
    let (k2, cs6) ← parseJString cs5
    if k2 = "startTime" then
      let cs7 ← expectChar ':' cs6
      let (v2, cs8) ← parseJString cs7
      let cs9 ← expectChar '\x7d' cs8
      some ((v1, v2), cs9)
    else none
  else none

/-- Parse a nonempty comma-separated entry sequence up to and including the
closing brace.  `fuel` bounds the recursion by the input length. -/
def parseEntries (fuel : Nat) (cs : List Char) : Option (ActiveMap × List Char) :=
  match fuel with
  | 0 => none
  | fuel + 1 => do
    let (k, cs1) ← parseJString cs
    let cs2 ← expectChar ':' cs1
    let (info, cs3) ← parseInfo cs2
    match skipWs cs3 with
    | ',' :: rest =>
      let (m, cs4) ← parseEntries fuel rest
      some ((k, info.1, info.2) :: m, cs4)
    | '\x7d' :: rest => some ([(k, info.1, info.2)], rest)
    | _ => none

/-- `JSON.parse` on the registry file content: `none` models a thrown
exception. -/
def parseActive (s : String) : Option ActiveMap :=
  match expectChar '\x7b' s.data with
  | none => none
  | some rest =>
    match skipWs rest with
    | '\x7d' :: rest2 => if (skipWs rest2).isEmpty then some [] else none
    | _ =>
      match parseEntries s.data.length rest with
      | some (m, rest2) => if (skipWs rest2).isEmpty then some m else none
      | none => none

def quoteJ (s : String) : String := "\"" ++ s ++ "\""

def serializeEntry (e : String × String × String) : String :=
  "  " ++ quoteJ e.1 ++ ": \x7b\n    \"projectDir\": " ++ quoteJ e.2.1 ++
    ",\n    \"startTime\": " ++ quoteJ e.2.2 ++ "\n  \x7d"

/-- `JSON.stringify(active, null, 2)`. -/
def serializeActive (m : ActiveMap) : String :=
  match m with
  | [] => "\x7b\x7d"
  | _ => "\x7b\n" ++ String.intercalate ",\n" (m.map serializeEntry) ++ "\n\x7d"

/-- JavaScript `active[sessionId] = info`: replace in place if the key
exists (object key order is preserved), append otherwise. -/
def setKey (m : ActiveMap) (id pd st : String) : ActiveMap :=
  if m.any (fun e => e.1 = id) then
    m.map (fun e => if e.1 = id then (id, pd, st) else e)
  else m ++ [(id, pd, st)]

/-! ### File-system state seen by the bookkeeping functions -/

/-- The storage directory contents relevant to the embedded operations:
the master index, the active-sessions registry (`none` = file absent, else
the raw file text) and the per-session log files as `(sessionId, content)`
pairs. -/
structure Store where
  masterIndex : Option String
  activeJson : Option String
  logs : List (String × String)
deriving DecidableEq, Repr

/-- `markSessionActive` (src/session.ts lines 111-126): read the registry
if present, `JSON.parse` it (throwing on malformed content — there is no
try/catch in the source), set the key, write it back pretty-printed. -/
def markSessionActive (sessionId projectDir startTime : String) (st : Store) :
    Except String Store :=
  match st.activeJson with
  | none =>
    Except.ok { st with activeJson := some (serializeActive (setKey [] sessionId projectDir startTime)) }
  | some content =>
    match parseActive content with
    | none => Except.error jsonParseError
    | some m =>
      Except.ok { st with activeJson := some (serializeActive (setKey m sessionId projectDir startTime)) }

/-- `markSessionCompleted` (src/session.ts lines 133-150): if the registry
file exists, `JSON.parse` it (throwing on malformed content), delete the
key, write it back; then, if `deleteLog`, delete the session log file. -/
def markSessionCompleted (sessionId : String) (deleteLog : Bool) (st : Store) :
    Except String Store :=
  let step1 : Except String Store :=
    match st.activeJson with
    | none => Except.ok st
    | some content =>
      match parseActive content with
      | none => Except.error jsonParseError
      | some m =>
        Except.ok { st with activeJson := some (serializeActive (m.filter (fun e => e.1 ≠ sessionId))) }
  match step1 with
  | Except.error e => Except.error e
  | Except.ok st1 =>
    Except.ok (if deleteLog then { st1 with logs := st1.logs.filter (fun p => p.1 ≠ sessionId) } else st1)

/-- `getActiveSessions` (src/session.ts lines 157-172): absent file gives
`[]`; a present file is `JSON.parse`d (throwing on malformed content) and
the keys returned, filtered by project directory when one is given. -/
def getActiveSessions (projectDir : Option String) (st : Store) :
    Except String (List String) :=
  match st.activeJson with
  | none => Except.ok []
  | some content =>
    match parseActive content with
    | none => Except.error jsonParseError
    | some m =>
      match projectDir with
      | some pd => Except.ok ((m.filter (fun e => e.2.1 = pd)).map (fun e => e.1))
      | none => Except.ok (m.map (fun e => e.1))

/-- Append text to the session log file (the wrapper log stream write). -/
def appendToLog (sessionId text : String) (st : Store) : Store :=
  { st with logs := st.logs.map (fun p => if p.1 = sessionId then (p.1, p.2 ++ text) else p) }

/-- The `close` handler footer of src/wrapper.ts line 98. -/
def exitFooter (timestamp : String) (code : Int) : String :=
  "\n[" ++ timestamp ++ "] Process exited with code: " ++ toString code ++ "\n"

/-- Modelled from the spec: the command runner completion step.  Section
4.3 step 3 of the spec: write the footer with exit code and timestamp,
then "mark session completed with archive decision from the retention
configuration", where section 4.4 fixes the decision as keep-duration
`D = 0` means delete the log immediately at completion.  The footer write
is from src/wrapper.ts lines 95-113 and `markSessionCompleted` from
src/session.ts lines 133-150; the call site wiring the `AI_KEEP_LOGS`
keep-duration to the `deleteLog` argument is not among the provided
sources (src/wrapper.ts is an older revision that predates the completion
bookkeeping; nothing under src/ calls `markSessionCompleted`). -/
def runnerClose (keepDays : Nat) (sessionId timestamp : String) (code : Int) (st : Store) :
    Except String Store :=
  markSessionCompleted sessionId (decide (keepDays = 0)) (appendToLog sessionId (exitFooter timestamp code) st)

/-! ### Error-detection regexes, from src/server.ts lines 135-146 and 202-213

The patterns used by `get_crash_context` and `auto_fix_errors` are literal
words with optional word boundaries (`\b`), an optional `i` flag, plus two
special forms (`Process exited with code: [^0]` and the anchored
`^\s+at\s+`).  Each is embedded as a scan for a match position. -/

/-- The regex word class `\w` = `[A-Za-z0-9_]`. -/
def isWordChar (c : Char) : Bool := c.isAlphanum || c = '_'

def ciEq (ci : Bool) (p c : Char) : Bool := if ci then p.toLower = c.toLower else p = c

/-- Match a literal token list at the head of `cs`, returning the rest. -/
def litMatch (ci : Bool) : List Char → List Char → Option (List Char)
  | [], cs => some cs
  | _ :: _, [] => none
  | p :: ps, c :: cs => if ciEq ci p c then litMatch ci ps cs else none

/-- `\b` to the left of a word character: position start or a non-word
character before it. -/
def boundaryOk (prev : Option Char) : Bool :=
  match prev with
  | none => true
  | some c => !isWordChar c

/-- `\b` to the right of a word character: input end or a non-word
character after it. -/
def tailBoundaryOk (rest : List Char) : Bool :=
  match rest with
  | [] => true
  | c :: _ => !isWordChar c

/-- Match of `\b?toks\b?` at one position (`prev` = preceding character). -/
def wordPatAt (ci bl br : Bool) (toks : List Char) (prev : Option Char) (cs : List Char) : Bool :=
  (!bl || boundaryOk prev) &&
    (match litMatch ci toks cs with
     | none => false
     | some rest => !br || tailBoundaryOk rest)

/-- Scan all positions of the input for a positional matcher. -/
def scanFrom (m : Option Char → List Char → Bool) : Option Char → List Char → Bool
  | prev, [] => m prev []
  | prev, c :: cs => m prev (c :: cs) || scanFrom m (some c) cs

def occursIn (m : Option Char → List Char → Bool) (cs : List Char) : Bool := scanFrom m none cs

/-- `/\berror:/i` -/
def errorColonPat (cs : List Char) : Bool := occursIn (wordPatAt true true false "error:".data) cs

/-- `/\bError\b/` -/
def errorWordPat (cs : List Char) : Bool := occursIn (wordPatAt false true true "Error".data) cs

/-- `/\bexception:/i` -/
def exceptionColonPat (cs : List Char) : Bool := occursIn (wordPatAt true true false "exception:".data) cs

/-- `/\bException\b/` -/
def exceptionWordPat (cs : List Char) : Bool := occursIn (wordPatAt false true true "Exception".data) cs

/-- `/\bfailed\b/i` -/
def failedPat (cs : List Char) : Bool := occursIn (wordPatAt true true true "failed".data) cs

/-- `/\bTypeError\b/` -/
def typeErrorPat (cs : List Char) : Bool := occursIn (wordPatAt false true true "TypeError".data) cs

/-- `/\bSyntaxError\b/` -/
def syntaxErrorPat (cs : List Char) : Bool := occursIn (wordPatAt false true true "SyntaxError".data) cs

/-- `/\bReferenceError\b/` -/
def referenceErrorPat (cs : List Char) : Bool := occursIn (wordPatAt false true true "ReferenceError".data) cs

/-- `/Process exited with code: [^0]/` — the literal text followed by one
character other than `0`. -/
def exitCodeNonZeroPat (cs : List Char) : Bool :=
  occursIn
    (fun _ rest =>
      match litMatch false "Process exited with code: ".data rest with
      | some (c :: _) => c ≠ '0'
      | _ => false)
    cs

/-- `/Process exited with code/`, the classification variant (src/server.ts
line 226) without the trailing `: [^0]`. -/
def exitCodePlainPat (cs : List Char) : Bool :=
  occursIn (fun _ rest => (litMatch false "Process exited with code".data rest).isSome) cs

/-- `/^\s+at\s+/` — anchored: leading whitespace, `at`, whitespace.  The
greedy `\s+` must stop exactly at the maximal whitespace run, since any
shorter run is followed by whitespace rather than `a`. -/
def stackTracePat (cs : List Char) : Bool :=
  decide (0 < (cs.takeWhile Char.isWhitespace).length) &&
    (match cs.dropWhile Char.isWhitespace with
     | 'a' :: 't' :: c :: _ => c.isWhitespace
     | _ => false)

/-- The ten detection patterns, in source order (src/server.ts lines
135-146 = lines 202-213). -/
def errorPatterns : List (List Char → Bool) :=
  [errorColonPat, errorWordPat, exceptionColonPat, exceptionWordPat, failedPat,
   typeErrorPat, syntaxErrorPat, referenceErrorPat, exitCodeNonZeroPat, stackTracePat]

/-- A line is collected when some detection pattern matches (the source
inner loop pushes at the first matching pattern and breaks, so a line is
pushed exactly once iff any pattern matches). -/
def isErrorLine (cs : List Char) : Bool := errorPatterns.any (fun p => p cs)

/-- The classification of `auto_fix_errors` (src/server.ts lines 220-227):
a chain of independent `if` statements without `else`, each overwriting
`errorType`, starting from `Unknown Error`. -/
def classifyLine (cs : List Char) : String :=
  let t := "Unknown Error"
  let t := if errorColonPat cs then "Error" else t
  let t := if exceptionWordPat cs then "Exception" else t
  let t := if typeErrorPat cs then "TypeError" else t
  let t := if syntaxErrorPat cs then "SyntaxError" else t
  let t := if failedPat cs then "Failed" else t
  let t := if exitCodePlainPat cs then "Exit Code Error" else t
  let t := if stackTracePat cs then "Stack Trace" else t
  t

/-- Following the claim text (first matching rule in the priority order
generic Error, Exception, TypeError, SyntaxError, Failed, Exit-Code-Error,
Stack-Trace wins), for comparison with `classifyLine`. -/
def classifyLineFirstMatch (cs : List Char) : String :=
  if errorColonPat cs then "Error"
  else if exceptionWordPat cs then "Exception"
  else if typeErrorPat cs then "TypeError"
  else if syntaxErrorPat cs then "SyntaxError"
  else if failedPat cs then "Failed"
  else if exitCodePlainPat cs then "Exit Code Error"
  else if stackTracePat cs then "Stack Trace"
  else "Unknown Error"

/-- The last matching rule in the same order wins (the behaviour the
overwriting `if` chain actually has). -/
def classifyLineLastMatch (cs : List Char) : String :=
  if stackTracePat cs then "Stack Trace"
  else if exitCodePlainPat cs then "Exit Code Error"
  else if failedPat cs then "Failed"
  else if syntaxErrorPat cs then "SyntaxError"
  else if typeErrorPat cs then "TypeError"
  else if exceptionWordPat cs then "Exception"
  else if errorColonPat cs then "Error"
  else "Unknown Error"

/-! ### Log store, from src/storage.ts -/

/-- `getSessionLogFiles(limit)` (src/storage.ts lines 25-42) on a directory
whose session files are already sorted most-recently-modified first (the
function sorts by mtime; the embedding takes the sorted listing as input).
`limit ? files.slice(0, limit) : files`: a `limit` of `0` is falsy in
JavaScript, so it returns all files. -/
def getSessionLogFiles (files : List (String × String)) (limit : Nat) : List (String × String) :=
  if limit = 0 then files else files.take limit

/-- The per-file line selection of `readRecentLogs`:
`content.split('\n').filter(line => line.trim().length > 0)`. -/
def contentLines (content : String) : List String :=
  (jsSplitLines content).filter (fun l => 0 < (trimChars l.data).length)

/-- The separator pushed before each file's lines (src/storage.ts line 74).
Note it begins with an embedded newline. -/
def sepLine (fileName : String) : String := "\n━━━ " ++ fileName ++ " ━━━"

/-- The collection loop of `readRecentLogs` (src/storage.ts lines 64-76):
stop when the accumulator already holds `totalLines` entries, else push
the file separator and the file's nonblank lines. -/
def collectAux (totalLines : Nat) : List (String × String) → List String → List String
  | [], acc => acc
  | (name, content) :: rest, acc =>
    if totalLines ≤ acc.length then acc
    else collectAux totalLines rest (acc ++ sepLine name :: contentLines content)

/-- The entry list `readRecentLogs` joins in the per-session branch. -/
def recentLogEntries (files : List (String × String)) (totalLines maxFiles : Nat) : List String :=
  sliceNeg (collectAux totalLines (getSessionLogFiles files maxFiles) []) totalLines

/-- `readRecentLogs(totalLines, maxFiles)` (src/storage.ts lines 50-80).
`files` is the mtime-sorted session file listing (most recent first) and
`legacy` the content of the legacy combined `session.log` if it exists. -/
def readRecentLogs (files : List (String × String)) (legacy : Option String)
    (totalLines maxFiles : Nat) : String :=
  if (getSessionLogFiles files maxFiles).isEmpty then
    match legacy with
    | some content => joinLines (sliceNeg (jsSplitLines content) totalLines)
    | none => ""
  else joinLines (recentLogEntries files totalLines maxFiles)

/-! ### The three read tools, from src/server.ts

Each handler first checks `sessionFiles.length === 0 && !existsSync(LOG_FILE)`
(with `getSessionLogFiles()` called without a limit, hence all files) and
returns the explicit no-log text; the embedding abstracts each textual
outcome to a constructor. -/

/-- Outcome kinds of the read tools.  `noLog` is the text
"No log file found. Run a command with `ai` first."; `emptyLog` is
"Log file is empty." (view_logs only); `clean` is the zero-matches text of
get_crash_context / auto_fix_errors; `content`/`errorReport`/`fixReport`
carry the returned log data. -/
inductive ToolResult where
  | noLog
  | emptyLog
  | content (text : String)
  | clean
  | errorReport (errorLines : List String)
  | fixReport (classified : List (String × String))
deriving DecidableEq, Repr

/-- The filter-to-errors pass (src/server.ts lines 149-157): for each line
the inner loop pushes it at the first matching pattern and breaks, so a
line is kept exactly when some detection pattern matches. -/
def crashFilter (content : String) : List String :=
  (jsSplitLines content).filter (fun l => isErrorLine l.data)

/-- The filtered error lines both error tools compute from the merged
recent content. -/
def crashLines (files : List (String × String)) (legacy : Option String) (lines : Nat) :
    List String :=
  crashFilter (readRecentLogs files legacy lines 10)

/-- `view_logs` (src/server.ts lines 83-111). -/
def viewLogs (files : List (String × String)) (legacy : Option String) (lines : Nat) :
    ToolResult :=
  if files.isEmpty && legacy.isNone then ToolResult.noLog
  else
    let recent := readRecentLogs files legacy lines 10
    if recent = "" then ToolResult.emptyLog else ToolResult.content recent

/-- `get_crash_context` (src/server.ts lines 113-178). -/
def getCrashContext (files : List (String × String)) (legacy : Option String) (lines : Nat) :
    ToolResult :=
  if files.isEmpty && legacy.isNone then ToolResult.noLog
  else
    let errs := crashLines files legacy lines
    if errs.isEmpty then ToolResult.clean else ToolResult.errorReport errs

/-- `auto_fix_errors` (src/server.ts lines 180-286), abstracting the report
text to the classified error list (the deduplication and display cap shape
the report text only). -/
def autoFixErrors (files : List (String × String)) (legacy : Option String) (lines : Nat) :
    ToolResult :=
  if files.isEmpty && legacy.isNone then ToolResult.noLog
  else
    let errs := crashLines files legacy lines
    if errs.isEmpty then ToolResult.clean
    else ToolResult.fixReport (errs.map (fun l => (l, classifyLine l.data)))

/-! ### Session id generation, from src/session.ts lines 16-20

`generateSessionId` reads the clock (`new Date().toISOString()`) and two
random bytes (`randomBytes(2)`); the embedding takes both as inputs: the
ISO timestamp string and the byte values. -/

/-- Lowercase hex digit for a value below 16. -/
def hexDigitChar (n : Nat) : Char :=
  if n < 10 then Char.ofNat ('0'.toNat + n) else Char.ofNat ('a'.toNat + (n - 10))

/-- `Buffer.toString('hex')` of one byte: two lowercase hex digits. -/
def hexByte (b : Nat) : List Char :=
  [hexDigitChar ((b % 256) / 16), hexDigitChar (b % 16)]

/-- `.replace(/[-:T.]/g, '')` on the ISO timestamp. -/
def stripTimestampChars (s : String) : List Char :=
  s.data.filter (fun c => !(c = '-' || c = ':' || c = 'T' || c = '.'))

/-- `generateSessionId` (src/session.ts lines 16-20):
`timestamp.replace(/[-:T.]/g,'').slice(0,14)` + `-` + 4 random hex chars. -/
def generateSessionId (iso : String) (b0 b1 : Nat) : String :=
  ⟨(stripTimestampChars iso).take 14 ++ '-' :: (hexByte b0 ++ hexByte b1)⟩

/-! ### Redactor

Modelled from the spec: `src/redact-secrets.ts` is not among the provided
sources (src/wrapper.ts only imports `redactSecrets` from it), so the
redactor below is built from section 4.2 of the spec: an ordered list of
pattern-to-replacement rules recognizing known secret shapes — cloud
provider access keys, VCS tokens, payment-provider keys, model-provider
API keys, generic `KEY=value` and `Authorization: Bearer ...` forms,
database connection URLs, signed tokens, private-key PEM blocks — each
replaced by the fixed placeholder `[REDACTED]`.  The rules are embedded as
word-level shapes (a line is split on spaces, each secret-shaped word is
replaced, the word after a `Bearer` word is replaced, and for `KEY=value`
words the value part is replaced), which realizes the spec's
non-overlapping, order-independent rule classes. -/

/-- The fixed placeholder token. -/
def placeholder : List Char := "[REDACTED]".data

/-- The word marking a bearer token: the next word is the secret. -/
def bearerWord : List Char := "Bearer".data

def isUpperDigit (c : Char) : Bool := c.isUpper || c.isDigit

/-- Characters a key/token body may contain (never `=`, `[` or a space). -/
def isTokenChar (c : Char) : Bool := c.isAlphanum || c = '-' || c = '_'

/-- AWS-style access key id: `AKIA` + 16 uppercase alphanumerics. -/
def awsShape (w : List Char) : Bool :=
  "AKIA".data.isPrefixOf w && w.length = 20 && w.all isUpperDigit

/-- GitHub-style VCS token: `ghp_` + long token body. -/
def githubShape (w : List Char) : Bool :=
  "ghp_".data.isPrefixOf w && decide (20 ≤ w.length) && w.all isTokenChar

/-- Stripe-style payment-provider key. -/
def stripeShape (w : List Char) : Bool :=
  ("sk_live_".data.isPrefixOf w || "sk-live-".data.isPrefixOf w ||
      "pk_live_".data.isPrefixOf w) &&
    w.all isTokenChar

/-- Model-provider API key: `sk-` + long token body. -/
def modelKeyShape (w : List Char) : Bool :=
  "sk-".data.isPrefixOf w && decide (12 ≤ w.length) && w.all isTokenChar

/-- Signed token (JWT): `eyJ` + base64url segments joined by dots. -/
def jwtShape (w : List Char) : Bool :=
  "eyJ".data.isPrefixOf w && w.all (fun c => isTokenChar c || c = '.')

/-- Database connection URL schemes. -/
def dbUrlShape (w : List Char) : Bool :=
  "postgres://".data.isPrefixOf w || "postgresql://".data.isPrefixOf w ||
    "mysql://".data.isPrefixOf w || "mongodb://".data.isPrefixOf w ||
    "redis://".data.isPrefixOf w

/-- Private-key PEM block marker (the block is redacted from its marker). -/
def pemShape (w : List Char) : Bool := "-----BEGIN".data.isPrefixOf w

/-- A word that is itself a recognizable secret. -/
def secretShape (w : List Char) : Bool :=
  awsShape w || githubShape w || stripeShape w || modelKeyShape w ||
    jwtShape w || dbUrlShape w || pemShape w

/-- The key part of a `KEY=value` word. -/
def kvKey (w : List Char) : List Char := w.takeWhile (fun c => c ≠ '=')

/-- Key names whose values are secrets (matched as case-insensitive
suffixes of the key). -/
def keyNames : List (List Char) :=
  ["KEY".data, "TOKEN".data, "SECRET".data, "PASSWORD".data, "PASS".data, "PWD".data]

def isSecretKeyName (k : List Char) : Bool :=
  decide (k ≠ []) && keyNames.any (fun n => n.isSuffixOf (k.map Char.toUpper))

/-- A `KEY=value` word whose key names a secret. -/
def kvShape (w : List Char) : Bool := w.contains '=' && isSecretKeyName (kvKey w)

/-- Redact one word: a secret-shaped word becomes the placeholder, a
`KEY=value` word keeps its key and the value becomes the placeholder,
anything else is unchanged. -/
def redactWord (w : List Char) : List Char :=
  if secretShape w then placeholder
  else if kvShape w then kvKey w ++ '=' :: placeholder
  else w

/-- Redact a word list; `afterBearer` records that the previous word was
`Bearer`, in which case the current word is the bearer token and is
replaced whole. -/
def redactWordsAux : Bool → List (List Char) → List (List Char)
  | _, [] => []
  | afterBearer, w :: ws =>
    (if afterBearer then placeholder
     else if w = bearerWord then w
     else redactWord w) ::
      redactWordsAux (!afterBearer && decide (w = bearerWord)) ws

def redactWords (ws : List (List Char)) : List (List Char) := redactWordsAux false ws

/-- `redactSecrets(line)`: split on spaces, redact each word, rejoin. -/
def redactSecrets (line : String) : String :=
  ⟨joinWith ' ' (redactWordsAux false (splitOnChar ' ' line.data))⟩

/-! ## Theorems -/

/-! ### Generic lemmas about the embedded JavaScript primitives -/

theorem sliceNeg_zero (l : List α) : sliceNeg l 0 = l := by
  simp [sliceNeg]

theorem sliceNeg_length_le (l : List α) (n : Nat) (hn : 1 ≤ n) :
    (sliceNeg l n).length ≤ n := by
  unfold sliceNeg
  split
  · omega
  · simp only [List.length_drop]
    omega

theorem sliceNeg_subset (l : List α) (n : Nat) : ∀ x ∈ sliceNeg l n, x ∈ l := by
  unfold sliceNeg
  split
  · intro x hx; exact hx
  · intro x hx; exact (List.drop_sublist _ _).subset hx

/-! ### C1 -/

/-- C1: the claim says `getRecentSessionIds(n)` recovers every registered
session id from the ledger, including ids whose random hex suffix contains
letters a-f.  The extraction regex `\[([\d-]+)\]` matches digits and
hyphens only, so a bracketed id containing a hex letter is never matched:
registering `20250122143000-a3f2` (the very shape the generator's own doc
comment shows) and asking for the most recent id yields the empty list,
while an all-digit suffix id is recovered — the code contradicts its own
documented behaviour. -/
theorem c1_ledger_drops_hex_ids :
    getRecentSessionIds
        (registerSession none "2026-10-11T00:00:00.000Z" "20250122143000-a3f2" "/home/u"
          "npm" ["test"]) 1 = [] ∧
      "20250122143000-a3f2" ∉
        getAllSessionIds
          (registerSession none "2026-10-11T00:00:00.000Z" "20250122143000-a3f2" "/home/u"
            "npm" ["test"]) ∧
      getRecentSessionIds
          (registerSession none "2026-10-11T00:00:00.000Z" "20250122143000-1234" "/home/u"
            "npm" ["test"]) 1 = ["20250122143000-1234"] := by
  refine ⟨by decide, by decide, by decide⟩

/-! ### C10 -/

/-- C10: for `count = 0`, `getRecentSessionIds` returns every session id
the ledger parse yields, most recent first (because `slice(-0)` takes the
whole array), and for `count = n >= 1` it returns at most `n` ids. -/
theorem getRecentSessionIds_count_spec (content : String) (n : Nat) :
    getRecentSessionIds content 0 = (getAllSessionIds content).reverse ∧
      (1 ≤ n → (getRecentSessionIds content n).length ≤ n) := by
  constructor
  · unfold getRecentSessionIds
    rw [sliceNeg_zero]
  · intro hn
    unfold getRecentSessionIds
    rw [List.length_reverse]
    exact sliceNeg_length_le _ n hn

/-- Witness for C10 at a concrete ledger. -/
theorem getRecentSessionIds_count_spec_witness :
    getRecentSessionIds "[t] [20250101000000-1111] [/h] a" 0 =
        (getAllSessionIds "[t] [20250101000000-1111] [/h] a").reverse ∧
      (getRecentSessionIds "[t] [20250101000000-1111] [/h] a" 2).length ≤ 2 :=
  ⟨(getRecentSessionIds_count_spec "[t] [20250101000000-1111] [/h] a" 2).1,
   (getRecentSessionIds_count_spec "[t] [20250101000000-1111] [/h] a" 2).2 (by decide)⟩

/-! ### C4 -/

/-- C4 counterexample: the line `Error: build failed` matches both the
generic Error rule and the Failed rule; the claim says the first rule in
priority order (Error) is assigned, but the overwriting `if` chain assigns
Failed. -/
theorem c4_counterexample :
    classifyLine "Error: build failed".data = "Failed" ∧
      classifyLineFirstMatch "Error: build failed".data = "Error" ∧
      ("Failed" : String) ≠ "Error" := by
  refine ⟨by decide, by decide, by decide⟩

/-- C4 amended: the classification chain assigns exactly one category per
line, namely the LAST matching rule in the order generic Error, Exception,
TypeError, SyntaxError, Failed, Exit-Code-Error, Stack-Trace (defaulting
to Unknown Error), not the first. -/
theorem classifyLine_eq_lastMatch (cs : List Char) :
    classifyLine cs = classifyLineLastMatch cs := by
  unfold classifyLine classifyLineLastMatch
  cases h1 : errorColonPat cs <;> cases h2 : exceptionWordPat cs <;>
    cases h3 : typeErrorPat cs <;> cases h4 : syntaxErrorPat cs <;>
      cases h5 : failedPat cs <;> cases h6 : exitCodePlainPat cs <;>
        cases h7 : stackTracePat cs <;> simp

/-! ### C6 -/

/-- C6: the error filter of `get_crash_context` returns a sublist of the
input lines (order preserved, each occurrence kept at most once) that
contains every line matching at least one detection pattern and only
such lines. -/
theorem crashFilter_spec (content : String) :
    (crashFilter content).Sublist (jsSplitLines content) ∧
      (∀ l ∈ jsSplitLines content, isErrorLine l.data = true → l ∈ crashFilter content) ∧
      (∀ l ∈ crashFilter content, isErrorLine l.data = true) := by
  refine ⟨List.filter_sublist _, ?_, ?_⟩
  · intro l hl he
    exact List.mem_filter.mpr ⟨hl, he⟩
  · intro l hl
    exact (List.mem_filter.mp hl).2

/-- Witness for C6 at a concrete log text. -/
theorem crashFilter_spec_witness :
    "Error: x" ∈ crashFilter "Error: x\nall good" :=
  (crashFilter_spec "Error: x\nall good").2.1 "Error: x" (by decide) (by decide)

/-! ### C5 -/

/-- C5 counterexample: `markSessionActive` on a store whose
active-sessions file holds unparsable content does not treat the file as
empty and continue — `JSON.parse` throws and the operation fails. -/
theorem c5_counterexample :
    markSessionActive "20250101000000-abcd" "/proj" "2025-01-01T00:00:00.000Z"
        { masterIndex := none, activeJson := some "not json", logs := [] } =
      Except.error jsonParseError ∧
    ∀ st1 : Store,
      markSessionActive "20250101000000-abcd" "/proj" "2025-01-01T00:00:00.000Z"
          { masterIndex := none, activeJson := some "not json", logs := [] } ≠
        Except.ok st1 := by
  refine ⟨rfl, ?_⟩
  intro st1 h
  have h2 : (Except.error jsonParseError : Except String Store) = Except.ok st1 := h
  exact Except.noConfusion h2

/-- C5 amended: corrupt content is tolerated for the ledger — a line the
id regex cannot parse is skipped and extraction continues over the rest —
but not for the active-session registry: `markSessionActive`,
`markSessionCompleted` and `getActiveSessions` all fail with the
`JSON.parse` exception when the registry file content is malformed,
rather than treating it as empty. -/
theorem corruptBookkeeping_behaviour :
    (∀ (ls1 ls2 : List String) (g : String), extractSessionId g = none →
        (ls1 ++ g :: ls2).filterMap extractSessionId =
          (ls1 ++ ls2).filterMap extractSessionId) ∧
    (∀ (sid pd ts bad : String) (st : Store), st.activeJson = some bad →
        parseActive bad = none →
        markSessionActive sid pd ts st = Except.error jsonParseError) ∧
    (∀ (sid : String) (del : Bool) (bad : String) (st : Store), st.activeJson = some bad →
        parseActive bad = none →
        markSessionCompleted sid del st = Except.error jsonParseError) ∧
    (∀ (pd : Option String) (bad : String) (st : Store), st.activeJson = some bad →
        parseActive bad = none →
        getActiveSessions pd st = Except.error jsonParseError) := by
  refine ⟨?_, ?_, ?_, ?_⟩
  · intro ls1 ls2 g hg
    simp [List.filterMap_append, List.filterMap_cons, hg]
  · intro sid pd ts bad st hA hp
    simp [markSessionActive, hA, hp]
  · intro sid del bad st hA hp
    simp [markSessionCompleted, hA, hp]
  · intro pd bad st hA hp
    simp [getActiveSessions, hA, hp]

/-- Witness for C5 amended: a concrete garbage ledger line is skipped, and
a concrete corrupt registry makes `getActiveSessions` fail. -/
theorem corruptBookkeeping_behaviour_witness :
    (["[t] [20250101000000-1111] [/h] a"] ++ "garbage" ::
          ["[t2] [20250101000000-2222] [/h] b"]).filterMap extractSessionId =
        (["[t] [20250101000000-1111] [/h] a"] ++
          ["[t2] [20250101000000-2222] [/h] b"]).filterMap extractSessionId ∧
    getActiveSessions none
        { masterIndex := none, activeJson := some "\x7b oops", logs := [] } =
      Except.error jsonParseError :=
  ⟨corruptBookkeeping_behaviour.1 ["[t] [20250101000000-1111] [/h] a"]
      ["[t2] [20250101000000-2222] [/h] b"] "garbage" (by decide),
   corruptBookkeeping_behaviour.2.2.2 none "\x7b oops"
      { masterIndex := none, activeJson := some "\x7b oops", logs := [] } rfl (by decide)⟩

/-! ### C9 -/

/-- C9 counterexample: with a single existing but empty session log (and
no legacy file), log content is absent, yet `get_crash_context` returns
the clean result, not the explicit no-log result — the no-log result is
reserved for the no-files-at-all case. -/
theorem c9_counterexample :
    getCrashContext [("session-a.log", "")] none 100 = ToolResult.clean ∧
      ToolResult.clean ≠ ToolResult.noLog := by
  refine ⟨rfl, by decide⟩

/-- C9 amended: each read tool returns the explicit no-log result exactly
when there are no session files and no legacy file; whenever some log
file exists, the error tools return the distinct clean result whenever
zero lines match (including for empty content), never the no-log
result. -/
theorem readTools_noLog_spec (files : List (String × String)) (legacy : Option String)
    (n : Nat) :
    (viewLogs files legacy n = ToolResult.noLog ↔ files = [] ∧ legacy = none) ∧
      (getCrashContext files legacy n = ToolResult.noLog ↔ files = [] ∧ legacy = none) ∧
      (autoFixErrors files legacy n = ToolResult.noLog ↔ files = [] ∧ legacy = none) ∧
      (¬(files = [] ∧ legacy = none) → crashLines files legacy n = [] →
        getCrashContext files legacy n = ToolResult.clean ∧
          autoFixErrors files legacy n = ToolResult.clean) := by
  have hif : (files.isEmpty && legacy.isNone) = true ↔ files = [] ∧ legacy = none := by
    cases files <;> cases legacy <;> simp
  cases hfl : (files.isEmpty && legacy.isNone) with
  | true =>
    refine ⟨?_, ?_, ?_, ?_⟩
    · unfold viewLogs; rw [hfl]; simpa using hif.mp hfl
    · unfold getCrashContext; rw [hfl]; simpa using hif.mp hfl
    · unfold autoFixErrors; rw [hfl]; simpa using hif.mp hfl
    · intro hne; exact absurd (hif.mp hfl) hne
  | false =>
    have hne : ¬(files = [] ∧ legacy = none) := fun h => by
      rw [hif.mpr h] at hfl; cases hfl
    refine ⟨?_, ?_, ?_, ?_⟩
    · unfold viewLogs
      rw [hfl]
      simp only [Bool.false_eq_true, if_false]
      constructor
      · intro h
        split at h <;> cases h
      · intro h; exact absurd h hne
    · unfold getCrashContext
      rw [hfl]
      simp only [Bool.false_eq_true, if_false]
      constructor
      · intro h
        split at h <;> cases h
      · intro h; exact absurd h hne
    · unfold autoFixErrors
      rw [hfl]
      simp only [Bool.false_eq_true, if_false]
      constructor
      · intro h
        split at h <;> cases h
      · intro h; exact absurd h hne
    · intro _ hcl
      unfold getCrashContext autoFixErrors
      rw [hfl]
      simp [hcl]

/-- Witness for C9 amended: with one nonempty session file and no error
lines, both error tools return the clean result. -/
theorem readTools_noLog_spec_witness :
    getCrashContext [("session-a.log", "x")] none 100 = ToolResult.clean ∧
      autoFixErrors [("session-a.log", "x")] none 100 = ToolResult.clean :=
  (readTools_noLog_spec [("session-a.log", "x")] none 100).2.2.2 (by decide) (by decide)

/-! ### C7 -/

/-- Every entry the collection loop accumulates beyond the initial
accumulator is a file separator or a nonblank line of one of the files. -/
theorem collectAux_mem (totalLines : Nat) (fs : List (String × String)) :
    ∀ (acc : List String) (e : String), e ∈ collectAux totalLines fs acc →
      e ∈ acc ∨ ∃ fc ∈ fs, e = sepLine fc.1 ∨ e ∈ contentLines fc.2 := by
  induction fs with
  | nil =>
    intro acc e he
    exact Or.inl he
  | cons fc rest ih =>
    intro acc e he
    obtain ⟨name, content⟩ := fc
    unfold collectAux at he
    split at he
    · exact Or.inl he
    · rcases ih _ e he with h | ⟨fc1, hfc1, h1⟩
      · rcases List.mem_append.mp h with h2 | h2
        · exact Or.inl h2
        · rcases List.mem_cons.mp h2 with h3 | h3
          · exact Or.inr ⟨(name, content), List.mem_cons_self _ _, Or.inl h3⟩
          · exact Or.inr ⟨(name, content), List.mem_cons_self _ _, Or.inr h3⟩
      · exact Or.inr ⟨fc1, List.mem_cons_of_mem _ hfc1, h1⟩

/-- C7 counterexample: the claim says `read_recent(N)` returns at most `N`
lines of text; with `N = 1` and one session file of empty content the
result is the separator entry, whose embedded leading newline makes the
returned text two lines. -/
theorem c7_counterexample :
    ¬ ((jsSplitLines (readRecentLogs [("session-a.log", "")] none 1 10)).length ≤ 1) := by
  decide

/-- C7 amended: for `totalLines = N >= 1` and `maxFiles = M >= 1`, the
per-session branch of `readRecentLogs` joins at most `N` collected
entries, each of which is a separator or a nonblank content line of one
of the `M` most-recently-modified session files (a separator entry
prints as two text lines because it begins with a newline); with no
session files and a legacy file, it joins at most `N` of the legacy
file's lines. -/
theorem readRecentLogs_spec (files : List (String × String)) (legacy : Option String)
    (N M : Nat) (hN : 1 ≤ N) (hM : 1 ≤ M) :
    (files ≠ [] →
      readRecentLogs files legacy N M = joinLines (recentLogEntries files N M) ∧
        (recentLogEntries files N M).length ≤ N ∧
        ∀ e ∈ recentLogEntries files N M,
          ∃ fc ∈ files.take M, e = sepLine fc.1 ∨ e ∈ contentLines fc.2) ∧
    (∀ c, files = [] → legacy = some c →
      readRecentLogs files legacy N M = joinLines (sliceNeg (jsSplitLines c) N) ∧
        (sliceNeg (jsSplitLines c) N).length ≤ N ∧
        ∀ e ∈ sliceNeg (jsSplitLines c) N, e ∈ jsSplitLines c) := by
  have hGS : getSessionLogFiles files M = files.take M := by
    unfold getSessionLogFiles
    rw [if_neg (by omega)]
  constructor
  · intro hne
    have hNE : (getSessionLogFiles files M).isEmpty = false := by
      rw [hGS]
      cases files with
      | nil => exact absurd rfl hne
      | cons f fs =>
        cases M with
        | zero => omega
        | succ m => simp [List.take]
    refine ⟨?_, sliceNeg_length_le _ N hN, ?_⟩
    · unfold readRecentLogs
      rw [hNE]
      simp
    · intro e he
      have h1 : e ∈ collectAux N (getSessionLogFiles files M) [] :=
        sliceNeg_subset _ N e he
      rcases collectAux_mem N _ [] e h1 with h2 | ⟨fc, hfc, h3⟩
      · cases h2
      · exact ⟨fc, by rw [← hGS]; exact hfc, h3⟩
  · intro c hnil hleg
    subst hnil
    subst hleg
    refine ⟨?_, sliceNeg_length_le _ N hN, sliceNeg_subset _ N⟩
    unfold readRecentLogs
    have : getSessionLogFiles ([] : List (String × String)) M = [] := by
      unfold getSessionLogFiles
      split <;> simp
    rw [this]
    simp

/-- Witness for C7 amended at one concrete session file. -/
theorem readRecentLogs_spec_witness :
    (recentLogEntries [("session-a.log", "hello")] 3 10).length ≤ 3 :=
  (((readRecentLogs_spec [("session-a.log", "hello")] none 3 10 (by decide)
      (by decide)).1 (by decide)).2).1

/-! ### C2 -/

/-- C2: when the keep-duration is 0, the completion step deletes the
session's log file (no log entry for the session id survives in the
store) while the master-index ledger is untouched, so the ledger entry
written at registration still exists. -/
theorem runnerClose_keepZero (sessionId timestamp : String) (code : Int) (st st1 : Store)
    (h : runnerClose 0 sessionId timestamp code st = Except.ok st1) :
    (∀ p ∈ st1.logs, p.1 ≠ sessionId) ∧ st1.masterIndex = st.masterIndex := by
  unfold runnerClose markSessionCompleted appendToLog at h
  cases hA : st.activeJson with
  | none =>
    simp only [hA, Except.ok.injEq] at h
    subst h
    constructor
    · intro p hp
      simpa using (List.mem_filter.mp hp).2
    · rfl
  | some content =>
    simp only [hA] at h
    cases hp : parseActive content with
    | none =>
      simp only [hp] at h
      exact Except.noConfusion h
    | some m =>
      simp only [hp, Except.ok.injEq] at h
      subst h
      constructor
      · intro p hp1
        simpa using (List.mem_filter.mp hp1).2
      · rfl

/-- Witness for C2 at a concrete store. -/
theorem runnerClose_keepZero_witness :
    (∀ p ∈ ({ masterIndex := some "[t] [20250101000000-abcd] [/h] npm test",
              activeJson := some "\x7b\x7d",
              logs := [] } : Store).logs, p.1 ≠ "20250101000000-abcd") ∧
      ({ masterIndex := some "[t] [20250101000000-abcd] [/h] npm test",
         activeJson := some "\x7b\x7d",
         logs := [] } : Store).masterIndex =
        ({ masterIndex := some "[t] [20250101000000-abcd] [/h] npm test",
           activeJson := some "\x7b\x7d",
           logs := [("20250101000000-abcd", "log text")] } : Store).masterIndex :=
  runnerClose_keepZero "20250101000000-abcd" "2025-01-01T00:00:01.000Z" 0
    { masterIndex := some "[t] [20250101000000-abcd] [/h] npm test",
      activeJson := some "\x7b\x7d",
      logs := [("20250101000000-abcd", "log text")] }
    { masterIndex := some "[t] [20250101000000-abcd] [/h] npm test",
      activeJson := some "\x7b\x7d",
      logs := [] }
    rfl

/-! ### C8 -/

theorem hexDigitChar_inj16 :
    ∀ a b : Fin 16, hexDigitChar a.val = hexDigitChar b.val → a = b := by decide

theorem hexDigitChar_inj (a b : Nat) (ha : a < 16) (hb : b < 16)
    (h : hexDigitChar a = hexDigitChar b) : a = b :=
  congrArg Fin.val (hexDigitChar_inj16 ⟨a, ha⟩ ⟨b, hb⟩ h)

/-- A digit survives the `[-:T.]` strip. -/
theorem digit_keep (c : Char) (h : c.isDigit = true) :
    (!(c = '-' || c = ':' || c = 'T' || c = '.')) = true := by
  by_cases h1 : c = '-'
  · subst h1; exact absurd h (by decide)
  by_cases h2 : c = ':'
  · subst h2; exact absurd h (by decide)
  by_cases h3 : c = 'T'
  · subst h3; exact absurd h (by decide)
  by_cases h4 : c = '.'
  · subst h4; exact absurd h (by decide)
  simp [h1, h2, h3, h4]

/-- C8 counterexample: ids generated within the same second are NOT
always pairwise distinct — when the two random bytes repeat, the ids
coincide, so the universally quantified distinctness the claim states is
false. -/
theorem c8_counterexample :
    ¬ (∀ (iso : String) (b0 b1 c0 c1 : Nat),
        generateSessionId iso b0 b1 ≠ generateSessionId iso c0 c1) := by
  intro h
  exact h "2025-01-22T14:30:00.000Z" 163 242 163 242 rfl

/-- C8 amended: for a well-formed ISO timestamp, `generateSessionId`
returns the 14-character second-granularity digit timestamp (milliseconds
and zone dropped by the 14-character cut) followed by `-` and the 4-hex
encoding of the two random bytes, and two ids generated within the same
second are equal exactly when their random byte pairs are equal — the
suffix carries exactly the 16 bits of the two bytes, so ids in one second
are pairwise distinct iff the byte pairs differ. -/
theorem generateSessionId_spec (iso : String) (y mo dd hh mi ss ms : List Char)
    (b0 b1 c0 c1 : Nat)
    (hiso : iso.data =
      y ++ '-' :: (mo ++ '-' :: (dd ++ 'T' :: (hh ++ ':' ::
        (mi ++ ':' :: (ss ++ '.' :: (ms ++ ['Z'])))))))
    (hy : y.length = 4) (hmo : mo.length = 2) (hdd : dd.length = 2)
    (hhh : hh.length = 2) (hmi : mi.length = 2) (hss : ss.length = 2)
    (hdig : ((y ++ mo ++ dd ++ hh ++ mi ++ ss) ++ ms).all Char.isDigit = true)
    (hb0 : b0 < 256) (hb1 : b1 < 256) (hc0 : c0 < 256) (hc1 : c1 < 256) :
    (generateSessionId iso b0 b1).data =
        (y ++ mo ++ dd ++ hh ++ mi ++ ss) ++ '-' :: (hexByte b0 ++ hexByte b1) ∧
      (generateSessionId iso b0 b1 = generateSessionId iso c0 c1 ↔ b0 = c0 ∧ b1 = c1) := by
  have hdig1 : ∀ c ∈ (y ++ mo ++ dd ++ hh ++ mi ++ ss) ++ ms, c.isDigit = true :=
    fun c hc => List.all_eq_true.mp hdig c hc
  have fy : y.filter (fun c => !(c = '-' || c = ':' || c = 'T' || c = '.')) = y :=
    List.filter_eq_self.mpr (fun c hc => digit_keep c (hdig1 c (by simp [hc])))
  have fmo : mo.filter (fun c => !(c = '-' || c = ':' || c = 'T' || c = '.')) = mo :=
    List.filter_eq_self.mpr (fun c hc => digit_keep c (hdig1 c (by simp [hc])))
  have fdd : dd.filter (fun c => !(c = '-' || c = ':' || c = 'T' || c = '.')) = dd :=
    List.filter_eq_self.mpr (fun c hc => digit_keep c (hdig1 c (by simp [hc])))
  have fhh : hh.filter (fun c => !(c = '-' || c = ':' || c = 'T' || c = '.')) = hh :=
    List.filter_eq_self.mpr (fun c hc => digit_keep c (hdig1 c (by simp [hc])))
  have fmi : mi.filter (fun c => !(c = '-' || c = ':' || c = 'T' || c = '.')) = mi :=
    List.filter_eq_self.mpr (fun c hc => digit_keep c (hdig1 c (by simp [hc])))
  have fss : ss.filter (fun c => !(c = '-' || c = ':' || c = 'T' || c = '.')) = ss :=
    List.filter_eq_self.mpr (fun c hc => digit_keep c (hdig1 c (by simp [hc])))
  have fms : ms.filter (fun c => !(c = '-' || c = ':' || c = 'T' || c = '.')) = ms :=
    List.filter_eq_self.mpr (fun c hc => digit_keep c (hdig1 c (by simp [hc])))
  have hstrip : stripTimestampChars iso =
      (y ++ (mo ++ (dd ++ (hh ++ (mi ++ ss))))) ++ (ms ++ ['Z']) := by
    unfold stripTimestampChars
    rw [hiso, List.filter_append, fy, List.filter_cons_of_neg (by decide),
      List.filter_append, fmo, List.filter_cons_of_neg (by decide),
      List.filter_append, fdd, List.filter_cons_of_neg (by decide),
      List.filter_append, fhh, List.filter_cons_of_neg (by decide),
      List.filter_append, fmi, List.filter_cons_of_neg (by decide),
      List.filter_append, fss, List.filter_cons_of_neg (by decide),
      List.filter_append, fms, List.filter_cons_of_pos (by decide)]
    simp [List.append_assoc]
  have h14 : (y ++ (mo ++ (dd ++ (hh ++ (mi ++ ss))))).length = 14 := by
    simp [hy, hmo, hdd, hhh, hmi, hss]
  have htake : (stripTimestampChars iso).take 14 = y ++ (mo ++ (dd ++ (hh ++ (mi ++ ss)))) := by
    rw [hstrip, ← h14, List.take_left]
  constructor
  · show (stripTimestampChars iso).take 14 ++ '-' :: (hexByte b0 ++ hexByte b1) = _
    rw [htake]
    simp [List.append_assoc]
  · constructor
    · intro h
      have hd2 : (stripTimestampChars iso).take 14 ++ '-' :: (hexByte b0 ++ hexByte b1) =
          (stripTimestampChars iso).take 14 ++ '-' :: (hexByte c0 ++ hexByte c1) :=
        congrArg String.data h
      have h3 := List.append_cancel_left hd2
      have h4 : hexByte b0 ++ hexByte b1 = hexByte c0 ++ hexByte c1 := by
        injection h3
      rw [hexByte, hexByte, hexByte, hexByte, Nat.mod_eq_of_lt hb0, Nat.mod_eq_of_lt hb1,
        Nat.mod_eq_of_lt hc0, Nat.mod_eq_of_lt hc1] at h4
      simp only [List.cons_append, List.nil_append, List.cons.injEq, and_true] at h4
      obtain ⟨e1, e2, e3, e4⟩ := h4
      have d1 := hexDigitChar_inj _ _ (by omega) (by omega) e1
      have d2 := hexDigitChar_inj _ _ (by omega) (by omega) e2
      have d3 := hexDigitChar_inj _ _ (by omega) (by omega) e3
      have d4 := hexDigitChar_inj _ _ (by omega) (by omega) e4
      exact ⟨by omega, by omega⟩
    · rintro ⟨rfl, rfl⟩
      rfl

/-- Witness for C8 amended at a concrete timestamp and byte values. -/
theorem generateSessionId_spec_witness :
    (generateSessionId "2025-01-22T14:30:00.000Z" 163 242).data =
        ("2025".data ++ "01".data ++ "22".data ++ "14".data ++ "30".data ++ "00".data) ++
          '-' :: (hexByte 163 ++ hexByte 242) :=
  (generateSessionId_spec "2025-01-22T14:30:00.000Z" "2025".data "01".data "22".data
      "14".data "30".data "00".data "000".data 163 242 163 242 rfl rfl rfl rfl rfl rfl rfl
      (by decide) (by decide) (by decide) (by decide) (by decide)).1

/-! ### C3 -/

theorem splitOnChar_ne_nil (sep : Char) (cs : List Char) : splitOnChar sep cs ≠ [] := by
  induction cs with
  | nil => simp [splitOnChar]
  | cons c cs ih =>
    unfold splitOnChar
    by_cases h : c = sep
    · simp [h]
    · rw [if_neg h]
      cases hs : splitOnChar sep cs with
      | nil => simp
      | cons w ws => simp

theorem splitOnChar_no_sep (sep : Char) (cs : List Char) :
    ∀ w ∈ splitOnChar sep cs, sep ∉ w := by
  induction cs with
  | nil =>
    intro w hw
    simp [splitOnChar] at hw
    subst hw
    simp
  | cons c cs ih =>
    intro w hw
    unfold splitOnChar at hw
    by_cases h : c = sep
    · rw [if_pos h] at hw
      rcases List.mem_cons.mp hw with h1 | h1
      · subst h1; simp
      · exact ih w h1
    · rw [if_neg h] at hw
      cases hs : splitOnChar sep cs with
      | nil => exact absurd hs (splitOnChar_ne_nil sep cs)
      | cons v vs =>
        rw [hs] at hw
        rcases List.mem_cons.mp hw with h1 | h1
        · subst h1
          intro hmem
          rcases List.mem_cons.mp hmem with h2 | h2
          · exact h h2.symm
          · exact ih v (by rw [hs]; exact List.mem_cons_self v vs) h2
        · exact ih w (by rw [hs]; exact List.mem_cons_of_mem v h1)

theorem splitOnChar_of_no_sep (sep : Char) (w : List Char) (h : sep ∉ w) :
    splitOnChar sep w = [w] := by
  induction w with
  | nil => rfl
  | cons c cs ih =>
    have hc : ¬ c = sep := by
      intro e
      apply h
      rw [e]
      exact List.mem_cons_self _ _
    have h2 : sep ∉ cs := fun hm => h (List.mem_cons_of_mem c hm)
    unfold splitOnChar
    rw [if_neg hc, ih h2]

theorem splitOnChar_append_sep (sep : Char) (w t : List Char) (h : sep ∉ w) :
    splitOnChar sep (w ++ sep :: t) = w :: splitOnChar sep t := by
  induction w with
  | nil =>
    show splitOnChar sep (sep :: t) = [] :: splitOnChar sep t
    simp [splitOnChar]
  | cons c cs ih =>
    have hc : ¬ c = sep := by
      intro e
      apply h
      rw [e]
      exact List.mem_cons_self _ _
    have h2 : sep ∉ cs := fun hm => h (List.mem_cons_of_mem c hm)
    show splitOnChar sep (c :: (cs ++ sep :: t)) = (c :: cs) :: splitOnChar sep t
    simp only [splitOnChar]
    rw [if_neg hc, ih h2]

theorem splitOnChar_joinWith (sep : Char) (wss : List (List Char)) (hne : wss ≠ [])
    (hs : ∀ w ∈ wss, sep ∉ w) : splitOnChar sep (joinWith sep wss) = wss := by
  induction wss with
  | nil => exact absurd rfl hne
  | cons w ws ih =>
    cases ws with
    | nil => exact splitOnChar_of_no_sep sep w (hs w (List.mem_cons_self _ _))
    | cons v vs =>
      show splitOnChar sep (w ++ sep :: joinWith sep (v :: vs)) = w :: (v :: vs)
      rw [splitOnChar_append_sep sep w _ (hs w (List.mem_cons_self _ _))]
      rw [ih (by simp) (fun u hu => hs u (List.mem_cons_of_mem _ hu))]

theorem kvKey_no_eq (w : List Char) : ∀ c ∈ kvKey w, c ≠ '=' := by
  intro c hc
  have h := List.mem_takeWhile_imp hc
  simpa using h

theorem kvKey_decomp (w : List Char) (h : '=' ∈ w) : ∃ t, w = kvKey w ++ '=' :: t := by
  induction w with
  | nil => cases h
  | cons c cs ih =>
    by_cases hc : c = '='
    · subst hc
      refine ⟨cs, ?_⟩
      simp [kvKey]
    · rcases List.mem_cons.mp h with h1 | h2
      · exact absurd h1.symm hc
      · rcases ih h2 with ⟨t, ht⟩
        refine ⟨t, ?_⟩
        have hk : kvKey (c :: cs) = c :: kvKey cs := by
          simp [kvKey, List.takeWhile_cons, hc]
        rw [hk, List.cons_append, ← ht]

theorem isPrefixOf_append_eq_mark (p : List Char) (k t : List Char) (hp : '=' ∉ p) :
    p.isPrefixOf (k ++ '=' :: t) = p.isPrefixOf k := by
  induction p generalizing k with
  | nil => simp [List.isPrefixOf]
  | cons q ps ih =>
    cases k with
    | nil =>
      have hq : ¬ q = '=' := by
        intro e
        apply hp
        rw [e]
        exact List.mem_cons_self _ _
      simp [List.isPrefixOf, hq]
    | cons c ks =>
      have hps : '=' ∉ ps := fun hm => hp (List.mem_cons_of_mem q hm)
      show (q :: ps).isPrefixOf (c :: (ks ++ '=' :: t)) = (q :: ps).isPrefixOf (c :: ks)
      simp only [List.isPrefixOf]
      rw [ih ks hps]

theorem takeWhile_append_stop {p : Char → Bool} (k : List Char) (a : Char) (t : List Char)
    (hk : ∀ c ∈ k, p c = true) (ha : p a = false) :
    (k ++ a :: t).takeWhile p = k := by
  induction k with
  | nil => simp [List.takeWhile_cons, ha]
  | cons c cs ih =>
    simp [List.takeWhile_cons, hk c (List.mem_cons_self _ _),
      ih (fun d hd => hk d (List.mem_cons_of_mem _ hd))]

theorem all_false_of_mem {p : Char → Bool} {c : Char} {l : List Char}
    (hc : c ∈ l) (hp : p c = false) : l.all p = false := by
  cases hall : l.all p
  · rfl
  · exact absurd (List.all_eq_true.mp hall c hc) (by simp [hp])

/-- The placeholder is inert: redacting it changes nothing. -/
theorem redactWord_placeholder : redactWord placeholder = placeholder := by decide

theorem redactWord_eq_bearer (w : List Char) (h : redactWord w = bearerWord) :
    w = bearerWord := by
  unfold redactWord at h
  split at h
  · exact absurd h (by decide)
  · split at h
    · exfalso
      have hm : '=' ∈ kvKey w ++ '=' :: placeholder :=
        List.mem_append_right _ (List.mem_cons_self _ _)
      rw [h] at hm
      exact absurd hm (by decide)
    · exact h

theorem redactWord_idem (w : List Char) : redactWord (redactWord w) = redactWord w := by
  by_cases hs : secretShape w = true
  · have h1 : redactWord w = placeholder := by
      unfold redactWord
      rw [if_pos hs]
    rw [h1, redactWord_placeholder]
  · have hs0 : secretShape w = false := by
      cases h2 : secretShape w with
      | false => rfl
      | true => exact absurd h2 hs
    by_cases hk : kvShape w = true
    · have h1 : redactWord w = kvKey w ++ '=' :: placeholder := by
        unfold redactWord
        rw [if_neg hs, if_pos hk]
      have hk2 := hk
      unfold kvShape at hk2
      rw [Bool.and_eq_true] at hk2
      obtain ⟨hcont, hname⟩ := hk2
      have hmem : '=' ∈ w := by simpa using hcont
      obtain ⟨t, ht⟩ := kvKey_decomp w hmem
      have hw'mem : '=' ∈ kvKey w ++ '=' :: placeholder :=
        List.mem_append_right _ (List.mem_cons_self _ _)
      have hkvKeyEq : kvKey (kvKey w ++ '=' :: placeholder) = kvKey w := by
        unfold kvKey
        exact takeWhile_append_stop _ _ _
          (fun c hc => decide_eq_true (kvKey_no_eq w c hc)) (by decide)
      have hsFalse : secretShape w = false := hs0
      simp only [secretShape, Bool.or_eq_false_iff] at hsFalse
      obtain ⟨⟨⟨⟨⟨⟨haws0, hgh0⟩, hst0⟩, hmk0⟩, hjw0⟩, hdb0⟩, hpem0⟩ := hsFalse
      have haws' : awsShape (kvKey w ++ '=' :: placeholder) = false := by
        unfold awsShape
        rw [all_false_of_mem hw'mem (by decide)]
        simp
      have hgh' : githubShape (kvKey w ++ '=' :: placeholder) = false := by
        unfold githubShape
        rw [all_false_of_mem hw'mem (by decide)]
        simp
      have hst' : stripeShape (kvKey w ++ '=' :: placeholder) = false := by
        unfold stripeShape
        rw [all_false_of_mem hw'mem (by decide)]
        simp
      have hmk' : modelKeyShape (kvKey w ++ '=' :: placeholder) = false := by
        unfold modelKeyShape
        rw [all_false_of_mem hw'mem (by decide)]
        simp
      have hjw' : jwtShape (kvKey w ++ '=' :: placeholder) = false := by
        unfold jwtShape
        rw [all_false_of_mem hw'mem (by decide)]
        simp
      have hdbX : ∀ X : List Char, dbUrlShape (kvKey w ++ '=' :: X) =
          ("postgres://".data.isPrefixOf (kvKey w) ||
            "postgresql://".data.isPrefixOf (kvKey w) ||
            "mysql://".data.isPrefixOf (kvKey w) ||
            "mongodb://".data.isPrefixOf (kvKey w) ||
            "redis://".data.isPrefixOf (kvKey w)) := by
        intro X
        unfold dbUrlShape
        rw [isPrefixOf_append_eq_mark "postgres://".data (kvKey w) X (by decide),
          isPrefixOf_append_eq_mark "postgresql://".data (kvKey w) X (by decide),
          isPrefixOf_append_eq_mark "mysql://".data (kvKey w) X (by decide),
          isPrefixOf_append_eq_mark "mongodb://".data (kvKey w) X (by decide),
          isPrefixOf_append_eq_mark "redis://".data (kvKey w) X (by decide)]
      have hdb' : dbUrlShape (kvKey w ++ '=' :: placeholder) = false := by
        rw [hdbX placeholder, ← hdbX t, ← ht]
        exact hdb0
      have hpemX : ∀ X : List Char, pemShape (kvKey w ++ '=' :: X) =
          "-----BEGIN".data.isPrefixOf (kvKey w) := by
        intro X
        exact isPrefixOf_append_eq_mark "-----BEGIN".data (kvKey w) X (by decide)
      have hpem' : pemShape (kvKey w ++ '=' :: placeholder) = false := by
        rw [hpemX placeholder, ← hpemX t, ← ht]
        exact hpem0
      have hsec' : secretShape (kvKey w ++ '=' :: placeholder) = false := by
        unfold secretShape
        rw [haws', hgh', hst', hmk', hjw', hdb', hpem']
        rfl
      have hkv' : kvShape (kvKey w ++ '=' :: placeholder) = true := by
        unfold kvShape
        rw [hkvKeyEq, hname]
        have hcont' : (kvKey w ++ '=' :: placeholder).contains '=' = true := by
          simp [hw'mem]
        rw [hcont']
        rfl
      rw [h1]
      unfold redactWord
      rw [if_neg (by rw [hsec']; exact Bool.false_ne_true), if_pos hkv', hkvKeyEq]
    · have h1 : redactWord w = w := by
        unfold redactWord
        rw [if_neg hs, if_neg hk]
      rw [h1, h1]

theorem takeWhile_subset_self {p : Char → Bool} (l : List Char) :
    ∀ c ∈ l.takeWhile p, c ∈ l := by
  intro c hc
  exact (List.takeWhile_prefix p).sublist.subset hc

theorem redactWord_no_space (w : List Char) (h : ' ' ∉ w) : ' ' ∉ redactWord w := by
  unfold redactWord
  split
  · decide
  · split
    · intro hm
      rcases List.mem_append.mp hm with h1 | h1
      · exact h (takeWhile_subset_self w ' ' h1)
      · rcases List.mem_cons.mp h1 with h2 | h2
        · exact absurd h2 (by decide)
        · exact absurd h2 (by decide)
    · exact h

theorem redactWordsAux_no_space (b : Bool) (l : List (List Char))
    (h : ∀ w ∈ l, ' ' ∉ w) : ∀ w ∈ redactWordsAux b l, ' ' ∉ w := by
  induction l generalizing b with
  | nil => intro w hw; cases hw
  | cons v vs ih =>
    intro w hw
    unfold redactWordsAux at hw
    rcases List.mem_cons.mp hw with h1 | h1
    · subst h1
      split
      · decide
      · split
        · exact h v (List.mem_cons_self _ _)
        · exact redactWord_no_space v (h v (List.mem_cons_self _ _))
    · exact ih _ (fun u hu => h u (List.mem_cons_of_mem _ hu)) w h1

theorem redactWordsAux_ne_nil (b : Bool) (l : List (List Char)) (h : l ≠ []) :
    redactWordsAux b l ≠ [] := by
  cases l with
  | nil => exact absurd rfl h
  | cons v vs => simp [redactWordsAux]

theorem redactWordsAux_idem (l : List (List Char)) :
    ∀ b, redactWordsAux b (redactWordsAux b l) = redactWordsAux b l := by
  induction l with
  | nil => intro b; rfl
  | cons w ws ih =>
    intro b
    cases b with
    | true =>
      show placeholder :: redactWordsAux false (redactWordsAux false ws) =
          placeholder :: redactWordsAux false ws
      rw [ih false]
    | false =>
      by_cases hw : w = bearerWord
      · subst hw
        show bearerWord :: redactWordsAux true (redactWordsAux true ws) =
            bearerWord :: redactWordsAux true ws
        rw [ih true]
      · have hrw : ¬ redactWord w = bearerWord := fun h2 => hw (redactWord_eq_bearer w h2)
        have e1 : redactWordsAux false (w :: ws) =
            redactWord w :: redactWordsAux false ws := by
          conv_lhs => rw [redactWordsAux.eq_def]
          simp [hw]
        have e2 : redactWordsAux false (redactWord w :: redactWordsAux false ws) =
            redactWord (redactWord w) :: redactWordsAux false (redactWordsAux false ws) := by
          conv_lhs => rw [redactWordsAux.eq_def]
          simp [hrw]
        rw [e1, e2, redactWord_idem, ih false]

/-- C3: redaction is idempotent — `redact(redact(x)) = redact(x)` for
every input line `x`, and the placeholder is inert under redaction
(`redactWord_placeholder`).  Modelled from the spec: the concrete rule
table lives in `src/redact-secrets.ts`, which is not among the provided
sources; the rules here are built from the secret shapes section 4.2 of
the spec names. -/
theorem redactSecrets_idempotent (line : String) :
    redactSecrets (redactSecrets line) = redactSecrets line := by
  unfold redactSecrets
  have hW := splitOnChar_no_sep ' ' line.data
  have hWne := splitOnChar_ne_nil ' ' line.data
  have hRne : redactWordsAux false (splitOnChar ' ' line.data) ≠ [] :=
    redactWordsAux_ne_nil false _ hWne
  have hRns : ∀ w ∈ redactWordsAux false (splitOnChar ' ' line.data), ' ' ∉ w :=
    redactWordsAux_no_space false _ hW
  have hsplit : splitOnChar ' '
      (String.data ⟨joinWith ' ' (redactWordsAux false (splitOnChar ' ' line.data))⟩) =
      redactWordsAux false (splitOnChar ' ' line.data) := by
    show splitOnChar ' ' (joinWith ' ' (redactWordsAux false (splitOnChar ' ' line.data))) = _
    exact splitOnChar_joinWith ' ' _ hRne hRns
  rw [hsplit, redactWordsAux_idem _ false]

end LogBridge
